import Mathlib

/-!
A shallow embedding of the core data pipeline of `src/dsd.py` (a pandas /
streamlit sales dashboard), together with proofs about the claims of its
specification.

Modelling conventions:
* Python/pandas floats are modelled as exact rationals (`ℚ`); pandas `NaN`
  ("missing") cells are modelled with `Option`/an explicit `null` value.
  Floating-point rounding, infinities, and exponent literals are outside the
  rational model; none of the claims depend on them.
* A pandas `DataFrame` is modelled column-orientedly as a list of
  (column name, cell list) pairs; row extraction zips the columns.
* A raised Python exception is modelled as `Except.error`; `st.stop()` after
  `st.error` is likewise modelled as an error result that carries the data the
  user is shown (processing halts, no dashboard value is produced).
-/

namespace DSD

/-- A cell value as it can occur in a (raw or normalized) table: a string,
a float (rational in the model), or a missing value (pandas `NaN`). -/
inductive Val where
  | str (s : String)
  | num (q : ℚ)
  | null
deriving DecidableEq

/-! ### Characters and digit strings -/

/-- Numeric value of a digit character (`c.toNat - 48`). -/
def charVal (c : Char) : ℕ := c.toNat - 48

/-- The digit character for `d < 10` (`chr(48 + d)`). -/
def digitChar (d : ℕ) : Char := Char.ofNat (48 + d)

/-- Value of a digit string read left to right, e.g. `"1234" ↦ 1234`. -/
def digitsToNat (cs : List Char) : ℕ :=
  cs.foldl (fun a c => 10 * a + charVal c) 0

/-- Decimal digit string of a natural number (no leading zeros except `"0"`). -/
def natDigits (n : ℕ) : List Char :=
  if _h : n < 10 then [digitChar n]
  else natDigits (n / 10) ++ [digitChar (n % 10)]
termination_by n
decreasing_by
  exact Nat.div_lt_self (by omega) (by omega)

/-- The low `k` decimal digits of `m`, zero-padded to width `k`. -/
def padDigits (m : ℕ) : ℕ → List Char
  | 0 => []
  | k + 1 => padDigits (m / 10) k ++ [digitChar (m % 10)]

/-! ### Python `float()` on comma/space-stripped strings, and `str()` of a float

`float(s)` is modelled for decimal literals (optional sign, digits, optional
decimal point) and the literal `"nan"`; `str(f)` for a float is modelled as an
exact decimal rendering of the rational (Python's `repr` of a float is the
shortest decimal string that parses back to the same float, so in the rational
model parse-after-render is the identity, which is the property the proofs
use). -/

/-- Parse an unsigned decimal literal: `digits`, `digits.digits`, `digits.`,
or `.digits`. Returns `none` when the string is not of this shape
(models the `ValueError` raised by `float()`). -/
def parseUnsigned (cs : List Char) : Option ℚ :=
  let ip := cs.takeWhile Char.isDigit
  match cs.dropWhile Char.isDigit with
  | [] => if ip.isEmpty then none else some (digitsToNat ip : ℚ)
  | '.' :: fp =>
      if fp.all Char.isDigit && !(ip.isEmpty && fp.isEmpty) then
        some ((digitsToNat ip : ℚ) + (digitsToNat fp : ℚ) / 10 ^ fp.length)
      else none
  | _ => none

/-- Parse a signed decimal literal, as `float()` does. -/
def parseSigned (cs : List Char) : Option ℚ :=
  match cs with
  | '-' :: rest => (parseUnsigned rest).map (fun q => -q)
  | '+' :: rest => parseUnsigned rest
  | _ => parseUnsigned cs

/-- Models Python `float(s)` for the strings the pipeline feeds it:
`some none` is `NaN`, `some (some q)` a finite value, `none` a `ValueError`. -/
def pyFloat (cs : List Char) : Option (Option ℚ) :=
  if cs = "nan".data then some none
  else (parseSigned cs).map some

/-- Exact decimal rendering of a rational whose denominator divides a power of
ten, in the shape `[-]intpart.fracpart` (models `str()` of a float; any exact
decimal rendering round-trips, which is all the development relies on). -/
def renderFloat (q : ℚ) : List Char :=
  let k := q.den
  let m := q.num.natAbs * (10 ^ k / q.den)
  (if q < 0 then ['-'] else []) ++ natDigits (m / 10 ^ k) ++ '.' :: padDigits m k

/-- Models pandas `.astype(str)` on one cell: strings stay, floats are
rendered, `NaN` prints as `"nan"`. -/
def pyStr (v : Val) : List Char :=
  match v with
  | .str s => s.data
  | .num q => renderFloat q
  | .null => "nan".data

/-! ### Column normalization (`normalize_columns`) -/

/-- Models `Series.str.replace(c, '', regex=False)`: remove every occurrence
of the character `c`. -/
def removeAllChar (c : Char) (cs : List Char) : List Char :=
  cs.filter (fun x => x ≠ c)

/-- Models Python `str.strip()`: drop leading and trailing whitespace. -/
def pyStrip (cs : List Char) : List Char :=
  (((cs.dropWhile Char.isWhitespace).reverse.dropWhile Char.isWhitespace)).reverse

/-- String-level `strip`. -/
def stripStr (s : String) : String := String.mk (pyStrip s.data)

/-- The header synonym table of `dsd.py` (`COLUMN_MAP`), as an association
list: recognized spellings on the left, canonical column names on the right. -/
def COLUMN_MAP : List (String × String) :=
  [("월", "월"), ("month", "월"), ("Month", "월"),
   ("매출액", "매출액"), ("매출", "매출액"), ("sales", "매출액"), ("Sales", "매출액"),
   ("전년동월", "전년동월"), ("전년", "전년동월"), ("prev", "전년동월"), ("전년_동월", "전년동월"),
   ("증감률", "증감률"), ("증감(%)", "증감률"), ("성장률", "증감률"), ("growth", "증감률")]

/-- Models `COLUMN_MAP.get(key, key)`. -/
def mapGet (key : String) : String :=
  match COLUMN_MAP.find? (fun p => p.1 == key) with
  | some p => p.2
  | none => key

/-- Models the header renaming of `normalize_columns`:
`cols[c] = COLUMN_MAP.get(str(c).strip(), str(c).strip())`. -/
def renameHeader (c : String) : String := mapGet (stripStr c)

/-- A DataFrame, column-oriented: a list of (header, cells) pairs. -/
abbrev Table := List (String × List Val)

/-- The three numeric canonical columns of `normalize_columns`. -/
def numericCols : List String := ["매출액", "전년동월", "증감률"]

/-- Numeric coercion of one cell, modelling
`.astype(str).str.replace(',','').str.replace(' ','').replace('', nan).astype(float)`:
stringify, drop all commas, drop all spaces, turn an empty result into `NaN`,
then parse as a float.  A parse failure is the (unguarded) `ValueError` of
`astype(float)`; its payload is the offending value, as in the Python message
`could not convert string to float: '...'` (the column name is not part of it). -/
def coerceCell (v : Val) : Except String Val :=
  let t := removeAllChar ' ' (removeAllChar ',' (pyStr v))
  if t.isEmpty then .ok .null
  else
    match pyFloat t with
    | some none => .ok .null
    | some (some q) => .ok (.num q)
    | none => .error (String.mk t)

/-- The header-renaming pass of `normalize_columns` (`df.rename(columns=cols)`):
only header text changes, cells are untouched. -/
def renameTable (t : Table) : Table :=
  t.map (fun p => (renameHeader p.1, p.2))

/-- Per-column cell transformation of `normalize_columns`: numeric canonical
columns are coerced cell by cell, the period column `월` is stringified and
stripped, and every other column is left unchanged. -/
def transformColumn (n : String) (cells : List Val) : Except String (List Val) :=
  if numericCols.contains n then cells.mapM coerceCell
  else if n == "월" then .ok (cells.map (fun v => Val.str (String.mk (pyStrip (pyStr v)))))
  else .ok cells

/-- Models `normalize_columns`: rename headers, then apply the per-column
transformations; a `ValueError` from a numeric cell aborts the whole call. -/
def normalize_columns (t : Table) : Except String Table :=
  (renameTable t).mapM (fun p => (transformColumn p.1 p.2).map (fun cs => (p.1, cs)))

/-! ### Validation (`require_columns`) -/

/-- The four required canonical columns (`must` in `require_columns`). -/
def mustCols : List String := ["월", "매출액", "전년동월", "증감률"]

/-- Headers of a table (`df.columns`). -/
def colNames (t : Table) : List String := t.map Prod.fst

/-- Models `require_columns`: the required columns that are absent, in the
order of `must`; when the list is non-empty the page stops with exactly these
names (`st.error` + `st.stop`), modelled as an error result. -/
def require_columns (t : Table) : Except (List String) Unit :=
  let missing := mustCols.filter (fun c => !((colNames t).contains c))
  if missing.isEmpty then .ok () else .error missing

/-! ### Rows, sorting, aggregates -/

/-- One row of the validated table: the period label and the three numeric
columns (a numeric cell can still be missing, e.g. from an empty input cell). -/
structure Row where
  month : String
  sales : Option ℚ
  prior : Option ℚ
  growth : Option ℚ
deriving DecidableEq

/-- The string content of a (post-normalization) period cell. -/
def asStr : Val → String
  | .str s => s
  | _ => ""

/-- The numeric content of a (post-normalization) numeric cell. -/
def asNum : Val → Option ℚ
  | .num q => some q
  | _ => none

/-- Models `df[n]`: the cells of the first column named `n`. -/
def getCol (t : Table) (n : String) : List Val :=
  match t.find? (fun p => p.1 == n) with
  | some p => p.2
  | none => []

/-- Row extraction from the normalized, validated table. -/
def toRows (t : Table) : List Row :=
  let ms := getCol t "월"
  (List.range ms.length).map (fun i =>
    { month := asStr (ms.getD i .null)
      sales := asNum ((getCol t "매출액").getD i .null)
      prior := asNum ((getCol t "전년동월").getD i .null)
      growth := asNum ((getCol t "증감률").getD i .null) })

/-- Row comparison used by `df.sort_values('월')`: lexicographic string order
on the period labels. -/
def monthLe (a b : Row) : Prop := a.month ≤ b.month

instance : DecidableRel monthLe := fun a b =>
  inferInstanceAs (Decidable (a.month ≤ b.month))

instance : IsTotal Row monthLe := ⟨fun a b => le_total a.month b.month⟩

instance : IsTrans Row monthLe := ⟨fun _ _ _ h h' => le_trans h h'⟩

/-- Models `df.sort_values('월').reset_index(drop=True)`: rows reordered
ascending by period label (with positional indices afterwards). -/
def sortRows (rows : List Row) : List Row := rows.insertionSort monthLe

/-- Models pandas `Series.sum()` with its default `skipna=True`: missing cells
contribute nothing, an all-missing (or empty) series sums to `0.0`. -/
def pandasSum (xs : List (Option ℚ)) : ℚ :=
  xs.foldl (fun a x => match x with | some v => a + v | none => a) 0

/-- Number of non-missing cells of a series (`Series.count()`), which is the
denominator pandas uses for `Series.mean()`. -/
def pandasCount (xs : List (Option ℚ)) : ℕ :=
  xs.foldl (fun a x => match x with | some _ => a + 1 | none => a) 0

/-- Models pandas `Series.mean()` (`skipna=True`): the mean of the non-missing
cells, or `NaN` (here `none`) when there are none. -/
def pandasMean (xs : List (Option ℚ)) : Option ℚ :=
  if pandasCount xs = 0 then none else some (pandasSum xs / pandasCount xs)

/-- Fold state of `idxmax`: the best (position, value) seen so far; a new value
replaces it only when strictly greater, so ties keep the earliest position. -/
def idxmaxAux : List (Option ℚ) → ℕ → Option (ℕ × ℚ) → Option (ℕ × ℚ)
  | [], _, best => best
  | x :: xs, i, best =>
      idxmaxAux xs (i + 1)
        (match x, best with
         | some v, none => some (i, v)
         | some v, some (j, m) => if m < v then some (i, v) else some (j, m)
         | none, b => b)

/-- Models `Series.idxmax()` (after `reset_index`, labels are positions):
the position of the first occurrence of the maximum among non-missing cells;
`none` when there is none (pandas raises / yields `NaN`, and the following
`int(...)` raises). -/
def idxmax (xs : List (Option ℚ)) : Option ℕ := (idxmaxAux xs 0 none).map Prod.fst

/-- Fold state of `idxmin`, mirror image of `idxmaxAux`. -/
def idxminAux : List (Option ℚ) → ℕ → Option (ℕ × ℚ) → Option (ℕ × ℚ)
  | [], _, best => best
  | x :: xs, i, best =>
      idxminAux xs (i + 1)
        (match x, best with
         | some v, none => some (i, v)
         | some v, some (j, m) => if v < m then some (i, v) else some (j, m)
         | none, b => b)

/-- Models `Series.idxmin()`: first occurrence of the minimum. -/
def idxmin (xs : List (Option ℚ)) : Option ℕ := (idxminAux xs 0 none).map Prod.fst

/-- Models the growth percentage of `dsd.py` (computed identically at line 141
and in `make_indicator`): `((total - last_year) / last_year * 100) if last_year
else 0.0` — the Python truthiness test makes it exactly `0.0` when the
prior-year total is zero. -/
def growth_pct (total last_year : ℚ) : ℚ :=
  if last_year = 0 then 0 else (total - last_year) / last_year * 100

/-! ### The year-over-year difference chart (`hbar_diff`) -/

/-- Per-row year-over-year difference `매출액 - 전년동월` (`NaN` when either
side is missing). -/
def yoyDiff (r : Row) : Option ℚ :=
  match r.sales, r.prior with
  | some a, some b => some (a - b)
  | _, _ => none

/-- Comparison used by `sort_values('전년대비_증감액', ascending=True)`:
ordinary order on present values, with `NaN` sorted last
(pandas `na_position='last'`). -/
def diffLe (a b : Row) : Prop :=
  match yoyDiff a, yoyDiff b with
  | some x, some y => x ≤ y
  | none, some _ => False
  | _, none => True

instance : DecidableRel diffLe := fun a b => by
  unfold diffLe
  cases yoyDiff a <;> cases yoyDiff b <;> simp <;> infer_instance

instance : IsTotal Row diffLe :=
  ⟨fun a b => by
    unfold diffLe
    cases yoyDiff a <;> cases yoyDiff b <;> simp [le_total]⟩

instance : IsTrans Row diffLe :=
  ⟨fun a b c hab hbc => by
    unfold diffLe at *
    rcases ha : yoyDiff a with _ | x <;> rcases hb : yoyDiff b with _ | y <;>
      rcases hc : yoyDiff c with _ | z <;> simp_all
    exact le_trans (by assumption : x ≤ y) (by assumption : y ≤ z)⟩

/-- The sorted row list `tmp` of `hbar_diff`. -/
def hbarSorted (rows : List Row) : List Row := rows.insertionSort diffLe

/-- Models `set(tmp.tail(3)['월'])`: the period labels of the (up to) 3 rows
with the largest differences. -/
def top3 (rows : List Row) : List String :=
  ((hbarSorted rows).drop ((hbarSorted rows).length - 3)).map Row.month

/-- Models `set(tmp.head(3)['월'])`: the period labels of the (up to) 3 rows
with the smallest differences. -/
def bottom3 (rows : List Row) : List String :=
  ((hbarSorted rows).take 3).map Row.month

/-- A row is emphasized as a top-3 ("highlight-high") row when its period label
is in `top3` (the code tests `m in top3` on the label, not on the row). -/
def highlightHigh (rows : List Row) (r : Row) : Bool :=
  (top3 rows).contains r.month

/-- A row is emphasized as a bottom-3 ("highlight-low") row when its period
label is in `bottom3`. -/
def highlightLow (rows : List Row) (r : Row) : Bool :=
  (bottom3 rows).contains r.month

/-! ### The pipeline -/

/-- Error taxonomy of one upload:
`dataFormat` is the (unguarded) `ValueError` of numeric coercion, carrying the
offending value string; `missingCols` is the `st.error`/`st.stop` of
`require_columns`, carrying the missing column names; `emptyData` is the
`ValueError` that `idxmax`/`int` raise when there is no valid sales cell. -/
inductive PipeError where
  | dataFormat (val : String)
  | missingCols (cols : List String)
  | emptyData
deriving DecidableEq

/-- Everything the presentation layer consumes. -/
structure Dashboard where
  rows : List Row
  total_sales : ℚ
  last_year_sales : ℚ
  avg_sales : Option ℚ
  max_idx : ℕ
  min_idx : ℕ
  growthPct : ℚ
deriving DecidableEq

/-- The full per-upload pipeline of `dsd.py` after `read_csv`: normalize,
validate, sort, derive the aggregates.  An error halts the run and no
`Dashboard` (hence no chart output) is produced. -/
def pipeline (t : Table) : Except PipeError Dashboard :=
  match normalize_columns t with
  | .error v => .error (.dataFormat v)
  | .ok n =>
    match require_columns n with
    | .error m => .error (.missingCols m)
    | .ok _ =>
      let rows := sortRows (toRows n)
      let sales := rows.map Row.sales
      let prior := rows.map Row.prior
      let total := pandasSum sales
      let ly := pandasSum prior
      match idxmax sales, idxmin sales with
      | some mi, some ni =>
          .ok ⟨rows, total, ly, pandasMean sales, mi, ni, growth_pct total ly⟩
      | _, _ => .error .emptyData

instance {ε α : Type} [DecidableEq ε] [DecidableEq α] : DecidableEq (Except ε α)
  | .error a, .error b =>
      if h : a = b then .isTrue (by rw [h]) else .isFalse (by simp [h])
  | .error _, .ok _ => .isFalse (by simp)
  | .ok _, .error _ => .isFalse (by simp)
  | .ok a, .ok b =>
      if h : a = b then .isTrue (by rw [h]) else .isFalse (by simp [h])

/-! ### Helper lemmas -/

/-- `require_columns` in closed form. -/
theorem require_columns_eq (t : Table) :
    require_columns t =
      (if mustCols.filter (fun c => !((colNames t).contains c)) = [] then .ok ()
       else .error (mustCols.filter (fun c => !((colNames t).contains c)))) := by
  simp [require_columns, List.isEmpty_iff]

/-- Membership in the missing-columns list is exactly membership in the
set difference of the required columns and the table's columns. -/
theorem mem_missing_iff (t : Table) (c : String) :
    c ∈ mustCols.filter (fun d => !((colNames t).contains d)) ↔
      c ∈ mustCols ∧ c ∉ colNames t := by
  simp [List.mem_filter, List.contains, List.elem_iff]

/-- When normalization succeeded and some required column is absent, the
pipeline halts with exactly the missing names and produces no dashboard. -/
theorem pipeline_missing (t n : Table) (hn : normalize_columns t = .ok n)
    (hm : mustCols.filter (fun c => !((colNames n).contains c)) ≠ []) :
    pipeline t = .error (.missingCols (mustCols.filter (fun c => !((colNames n).contains c)))) := by
  simp only [pipeline, hn, require_columns_eq, if_neg hm]

/-- When all required columns are present, the pipeline never reports a
missing-columns error. -/
theorem pipeline_not_missing (t n : Table) (hn : normalize_columns t = .ok n)
    (hm : mustCols.filter (fun c => !((colNames n).contains c)) = []) :
    ∀ m, pipeline t ≠ .error (.missingCols m) := by
  intro m
  simp only [pipeline, hn, require_columns_eq, if_pos hm]
  rcases idxmax ((sortRows (toRows n)).map Row.sales) with _ | mi <;>
    rcases idxmin ((sortRows (toRows n)).map Row.sales) with _ | ni <;> simp

/-! ### Claim C1: aggregate growth percentage -/

/-- C1: for every table, the aggregate growth percentage equals
`(totalSales - totalPriorYearSales) / totalPriorYearSales * 100` when the
prior-year total is nonzero, and is exactly `0` when it is zero (in the
rational model there is no NaN/infinity to produce; the guard prevents the
division by zero).  A prior-year column absent after validation cannot reach
this computation, and an all-missing column sums to `0`, which this theorem
covers. -/
theorem growth_pct_spec (total last_year : ℚ) :
    (last_year ≠ 0 → growth_pct total last_year = (total - last_year) / last_year * 100) ∧
    (last_year = 0 → growth_pct total last_year = 0) := by
  refine ⟨fun h => ?_, fun h => ?_⟩ <;> simp [growth_pct, h]

/-- Witness for C1 at the spec's own example (totals 600 and 540) and at a
zero prior-year total. -/
theorem growth_pct_spec_witness :
    growth_pct 600 540 = (600 - 540) / 540 * 100 ∧ growth_pct 600 0 = 0 :=
  ⟨(growth_pct_spec 600 540).1 (by norm_num), (growth_pct_spec 600 0).2 rfl⟩

/-! ### Claim C2: missing-column validation -/

/-- C2: for every normalized table, with `missing` the set difference between
the four required canonical columns and the table's columns (as the filtered
list `require_columns` builds), the pipeline fails if and only if `missing` is
non-empty; the error carries exactly the missing names (characterized both as
the list and by membership), and failure means no dashboard output exists. -/
theorem require_columns_spec (t n : Table) (hn : normalize_columns t = .ok n) :
    (mustCols.filter (fun c => !((colNames n).contains c)) ≠ [] ↔
      pipeline t = .error (.missingCols (mustCols.filter (fun c => !((colNames n).contains c))))) ∧
    (∀ m, pipeline t = .error (.missingCols m) →
      m = mustCols.filter (fun c => !((colNames n).contains c)) ∧ m ≠ [] ∧
      ∀ c, c ∈ m ↔ (c ∈ mustCols ∧ c ∉ colNames n)) := by
  by_cases hm : mustCols.filter (fun c => !((colNames n).contains c)) = []
  · refine ⟨⟨fun h => absurd hm h, fun h => absurd h (pipeline_not_missing t n hn hm _)⟩, ?_⟩
    exact fun m h => absurd h (pipeline_not_missing t n hn hm m)
  · refine ⟨⟨fun _ => pipeline_missing t n hn hm, fun _ => hm⟩, fun m h => ?_⟩
    have heq : m = mustCols.filter (fun c => !((colNames n).contains c)) := by
      have h2 := (pipeline_missing t n hn hm).symm.trans h
      have h3 : mustCols.filter (fun c => !((colNames n).contains c)) = m := by
        simpa using h2
      exact h3.symm
    exact ⟨heq, heq ▸ hm, fun c => heq ▸ mem_missing_iff n c⟩

/-- Witness for C2: the spec's own example, a table whose normalization lacks
`증감률`; the pipeline halts with exactly that column name. -/
theorem require_columns_spec_witness :
    pipeline [("월", [Val.str "2023-01"]), ("매출액", [Val.str "1"]), ("전년동월", [Val.str "2"])]
      = .error (.missingCols ["증감률"]) := by
  have h := (require_columns_spec
    [("월", [Val.str "2023-01"]), ("매출액", [Val.str "1"]), ("전년동월", [Val.str "2"])]
    [("월", [Val.str "2023-01"]), ("매출액", [Val.num 1]), ("전년동월", [Val.num 2])]
    (by decide)).1
  have h2 := h.mp (by decide)
  have h3 : mustCols.filter (fun c =>
      !((colNames [("월", [Val.str "2023-01"]), ("매출액", [Val.num 1]),
                   ("전년동월", [Val.num 2])]).contains c)) = ["증감률"] := by decide
  rw [h3] at h2
  exact h2

/-! ### Claim C3: unparseable numeric cells -/

/-- C3: a numeric cell that is non-empty after stripping and not parseable as
a float makes `float()` fail — `pyFloat` has no value on `"abc"` — and
`normalize_columns`/the pipeline abort with that error.  The source raises
this `ValueError` unguarded from `astype(float)` (crashing the page, and its
message carries only the offending value, not the column), so the claim's
required user-visible `DataFormatError` naming column and value does not
exist in the code; the error payload modelled here is the value alone. -/
theorem dataFormat_unguarded :
    pyFloat "abc".data = none ∧
    normalize_columns [("매출액", [Val.str "abc"])] = .error "abc" ∧
    pipeline [("월", [Val.str "2023-01"]), ("매출액", [Val.str "abc"]),
              ("전년동월", [Val.str "1"]), ("증감률", [Val.str "2"])]
      = .error (.dataFormat "abc") := by
  decide

/-! ### Claim C6: numeric coercion -/

/-- Numeric coercion of one cell as the specification words it: convert the
cell to its string form, remove all comma characters and all space characters
(one filter), map an empty result to missing, and parse the remainder as a
floating-point number. -/
def coerceCellSpec (v : Val) : Except String Val :=
  let t := (pyStr v).filter (fun c => !(c == ',' || c == ' '))
  if t.isEmpty then .ok .null
  else
    match pyFloat t with
    | some none => .ok .null
    | some (some q) => .ok (.num q)
    | none => .error (String.mk t)

/-- C6: the code's coercion (sequential comma then space removal, empty to
null, float parse) agrees with the specification's description on every cell,
and in particular the string `"1,234 "` coerces to the number `1234`. -/
theorem coerceCell_matches_spec :
    (∀ v, coerceCell v = coerceCellSpec v) ∧
    coerceCell (.str "1,234 ") = .ok (.num 1234) := by
  constructor
  · intro v
    have hfilter : removeAllChar ' ' (removeAllChar ',' (pyStr v)) =
        (pyStr v).filter (fun c => !(c == ',' || c == ' ')) := by
      rw [removeAllChar, removeAllChar, List.filter_filter]
      apply List.filter_congr
      intro c _
      by_cases h1 : c = ',' <;> by_cases h2 : c = ' ' <;> simp [h1, h2]
    simp only [coerceCell, coerceCellSpec, hfilter]
  · decide

/-! ### Claim C10: aggregates skip missing cells -/

/-- Accumulator form of `pandasSum`. -/
theorem pandasSum_foldl_acc (xs : List (Option ℚ)) (a : ℚ) :
    xs.foldl (fun a x => match x with | some v => a + v | none => a) a
      = a + (xs.filterMap id).sum := by
  induction xs generalizing a with
  | nil => simp
  | cons x xs ih => cases x <;> simp [ih, add_assoc]

/-- Accumulator form of `pandasCount`. -/
theorem pandasCount_foldl_acc (xs : List (Option ℚ)) (a : ℕ) :
    xs.foldl (fun a x => match x with | some _ => a + 1 | none => a) a
      = a + (xs.filterMap id).length := by
  induction xs generalizing a with
  | nil => simp
  | cons x xs ih => cases x <;> (simp [ih]; try omega)

/-- C10: `Series.sum` and `Series.mean` (with pandas' default `skipna=True`)
are computed over the non-missing cells only: the sum is the sum of present
values (so an all-missing column sums to `0`), and the mean is the mean of
present values alone, undefined (`NaN`, here `none`) when nothing is present. -/
theorem aggregates_skip_missing (xs : List (Option ℚ)) :
    pandasSum xs = (xs.filterMap id).sum ∧
    ((∀ x ∈ xs, x = none) → pandasSum xs = 0) ∧
    pandasMean xs =
      (if xs.filterMap id = [] then none
       else some ((xs.filterMap id).sum / ((xs.filterMap id).length : ℚ))) := by
  have hs : pandasSum xs = (xs.filterMap id).sum := by
    simpa [pandasSum] using pandasSum_foldl_acc xs 0
  have hc : pandasCount xs = (xs.filterMap id).length := by
    simpa [pandasCount] using pandasCount_foldl_acc xs 0
  refine ⟨hs, fun h => ?_, ?_⟩
  · have hnil : xs.filterMap id = [] := by
      rw [List.filterMap_eq_nil_iff]
      exact fun a ha => by rw [h a ha]; rfl
    rw [hs, hnil]
    rfl
  · unfold pandasMean
    rw [hs, hc]
    rcases hnil : xs.filterMap id with _ | ⟨y, ys⟩
    · simp
    · simp

/-- Witness for C10: a series with a missing middle cell sums over the present
cells, and an all-missing series sums to `0`. -/
theorem aggregates_skip_missing_witness :
    pandasSum [some 3, none, some 5] = ([some 3, none, some 5].filterMap id).sum ∧
    pandasSum [(none : Option ℚ)] = 0 :=
  ⟨(aggregates_skip_missing [some 3, none, some 5]).1,
   (aggregates_skip_missing [none]).2.1 (by simp)⟩

/-! ### Claim C5: sorting by period label -/

/-- C5: after normalization and validation the rows are sorted ascending by
period label in lexicographic string order — the sorted list is a permutation
of the input whose period labels are pairwise `≤` — and on the spec's example
periods `["2023-01","2023-03","2023-02"]` the resulting order is
`["2023-01","2023-02","2023-03"]`. -/
theorem sortRows_spec :
    (∀ rows : List Row, (sortRows rows).Perm rows ∧ List.Sorted monthLe (sortRows rows)) ∧
    (sortRows [⟨"2023-01", none, none, none⟩, ⟨"2023-03", none, none, none⟩,
               ⟨"2023-02", none, none, none⟩]).map Row.month =
      ["2023-01", "2023-02", "2023-03"] := by
  constructor
  · exact fun rows =>
      ⟨List.perm_insertionSort monthLe rows, List.sorted_insertionSort monthLe rows⟩
  · have h1 : ¬ ("2023-03" : String) ≤ "2023-02" := by
      rw [String.le_iff_toList_le]; decide
    have h2 : ("2023-01" : String) ≤ "2023-02" := by
      rw [String.le_iff_toList_le]; decide
    simp [sortRows, List.insertionSort, List.orderedInsert, monthLe, h1, h2]

/-! ### Claim C9: unrecognized headers and non-destructive renaming -/

/-- Pointwise reading of a successful `mapM` over `Except`. -/
theorem mapM_ok_nth {α β : Type} {ε : Type} (f : α → Except ε β) :
    ∀ (l : List α) (u : List β), l.mapM f = .ok u →
      ∀ (i : ℕ) a, l[i]? = some a → ∃ b, f a = .ok b ∧ u[i]? = some b := by
  intro l
  induction l with
  | nil => intro u _ i a hi; simp at hi
  | cons x xs ih =>
    intro u h i a hi
    rw [List.mapM_cons] at h
    cases hfx : f x with
    | error e => rw [hfx] at h; simp [Bind.bind, Except.bind] at h
    | ok b =>
      rw [hfx] at h
      cases hrest : xs.mapM f with
      | error e => rw [hrest] at h; simp [Bind.bind, Except.bind] at h
      | ok bs =>
        rw [hrest] at h
        simp only [Bind.bind, Except.bind, pure, Except.pure, Except.ok.injEq] at h
        subst h
        cases i with
        | zero =>
            simp only [List.getElem?_cons_zero, Option.some.injEq] at hi
            exact ⟨b, hi ▸ hfx, by simp⟩
        | succ j =>
            simp only [List.getElem?_cons_succ] at hi ⊢
            exact ih bs hrest j a hi

/-- C9 fails as stated: an unrecognized header that carries surrounding
whitespace does not pass through normalization unchanged — the code renames it
to its trimmed form (`" foo "` becomes `"foo"`). -/
theorem unrecognized_header_cex :
    normalize_columns [(" foo ", [Val.str "x"])] = .ok [("foo", [Val.str "x"])] ∧
    (" foo " : String) ≠ "foo" := by decide

/-- C9 (amended): renaming is non-destructive — every column keeps exactly its
cell values, only the header changes (to `COLUMN_MAP.get(header.strip(),
header.strip())`) — and a column whose trimmed header is not in the synonym
table is renamed to that trimmed header (so it is fully unchanged when already
trimmed) and its cells pass through normalization untouched. -/
theorem unrecognized_header_passthrough (t u : Table)
    (hn : normalize_columns t = .ok u) :
    ∀ (i : ℕ) (p : String × List Val), t[i]? = some p →
      ((renameTable t)[i]? = some (renameHeader p.1, p.2)) ∧
      (stripStr p.1 ∉ COLUMN_MAP.map Prod.fst →
        u[i]? = some (stripStr p.1, p.2)) := by
  intro i p hp
  constructor
  · simp [renameTable, hp]
  · intro hkey
    have hre : renameHeader p.1 = stripStr p.1 := by
      unfold renameHeader mapGet
      cases hfind : COLUMN_MAP.find? (fun q => q.1 == stripStr p.1) with
      | none => rfl
      | some q =>
        exfalso
        apply hkey
        have hq : q.1 = stripStr p.1 := by simpa using List.find?_some hfind
        exact hq ▸ List.mem_map_of_mem Prod.fst (List.mem_of_find?_eq_some hfind)
    have hmem : (renameTable t)[i]? = some (stripStr p.1, p.2) := by
      simp [renameTable, hp, hre]
    obtain ⟨b, hfb, hub⟩ := mapM_ok_nth _ (renameTable t) u hn i _ hmem
    have hnum : ¬ numericCols.contains (stripStr p.1) = true := by
      intro hc
      apply hkey
      have hmem2 : stripStr p.1 = "매출액" ∨ stripStr p.1 = "전년동월" ∨ stripStr p.1 = "증감률" := by
        simpa [numericCols, List.contains, List.elem_iff] using hc
      rcases hmem2 with h | h | h <;> rw [h] <;> decide
    have hmon : ¬ (stripStr p.1 == "월") = true := by
      intro hc
      apply hkey
      have hm : stripStr p.1 = "월" := by simpa using hc
      rw [hm]; decide
    simp only [transformColumn, hnum, Bool.false_eq_true, if_false, hmon,
      Except.map, Except.ok.injEq] at hfb
    rw [← hfb] at hub
    exact hub

/-- Witness for C9 (amended) at a table with the single column `" foo "`. -/
theorem unrecognized_header_passthrough_witness :
    ((renameTable [(" foo ", [Val.str "x"])])[0]? =
      some (renameHeader " foo ", [Val.str "x"])) ∧
    (([("foo", [Val.str "x"])] : Table)[0]? = some (stripStr " foo ", [Val.str "x"])) := by
  have h := unrecognized_header_passthrough [(" foo ", [Val.str "x"])]
    [("foo", [Val.str "x"])] (by decide) 0 (" foo ", [Val.str "x"]) (by decide)
  exact ⟨h.1, h.2 (by decide)⟩

/-! ### Claim C8: first-occurrence tie-breaking of idxmax / idxmin -/

/-- Invariant of the `idxmax` fold: the running best is the first occurrence of
the running maximum of the cells seen so far (`f` is the global cell lookup). -/
theorem idxmaxAux_spec (f : ℕ → Option ℚ) :
    ∀ (xs : List (Option ℚ)) (i : ℕ) (best : Option (ℕ × ℚ)),
      (∀ (k : ℕ), f (i + k) = (xs[k]?).join) →
      (match best with
       | none => ∀ k < i, f k = none
       | some (j, m) => j < i ∧ f j = some m ∧
           (∀ k < i, ∀ v, f k = some v → v ≤ m) ∧
           (∀ k < j, ∀ v, f k = some v → v < m)) →
      (match idxmaxAux xs i best with
       | none => ∀ (k : ℕ), f k = none
       | some (j, m) => f j = some m ∧
           (∀ (k : ℕ) v, f k = some v → v ≤ m) ∧
           (∀ k < j, ∀ v, f k = some v → v < m)) := by
  intro xs
  induction xs with
  | nil =>
    intro i best hagree hbest
    have htail : ∀ (k : ℕ), i ≤ k → f k = none := by
      intro k hk
      have := hagree (k - i)
      rw [Nat.add_sub_cancel' hk] at this
      simpa using this
    cases best with
    | none =>
      simp only [idxmaxAux]
      intro k
      by_cases hk : k < i
      · exact hbest k hk
      · exact htail k (le_of_not_lt hk)
    | some jm =>
      obtain ⟨j, m⟩ := jm
      simp only [idxmaxAux]
      obtain ⟨hji, hfj, hle, hlt⟩ := hbest
      refine ⟨hfj, fun k v hk => ?_, hlt⟩
      by_cases hki : k < i
      · exact hle k hki v hk
      · rw [htail k (le_of_not_lt hki)] at hk
        exact absurd hk (by simp)
  | cons x xs ih =>
    intro i best hagree hbest
    have hx0 : f i = x := by simpa using hagree 0
    have hagree' : ∀ (k : ℕ), f (i + 1 + k) = (xs[k]?).join := by
      intro k
      have := hagree (k + 1)
      rw [show i + (k + 1) = i + 1 + k by omega] at this
      simpa using this
    show (match idxmaxAux (x :: xs) i best with
       | none => ∀ (k : ℕ), f k = none
       | some (j, m) => f j = some m ∧
           (∀ (k : ℕ) v, f k = some v → v ≤ m) ∧
           (∀ k < j, ∀ v, f k = some v → v < m))
    simp only [idxmaxAux]
    apply ih (i + 1) _ hagree'
    cases x with
    | none =>
      cases best with
      | none =>
        intro k hk
        rcases Nat.lt_succ_iff_lt_or_eq.mp hk with h | h
        · exact hbest k h
        · subst h; exact hx0
      | some jm =>
        obtain ⟨j, m⟩ := jm
        obtain ⟨hji, hfj, hle, hlt⟩ := hbest
        refine ⟨by omega, hfj, fun k hk v hv => ?_, hlt⟩
        rcases Nat.lt_succ_iff_lt_or_eq.mp hk with h | h
        · exact hle k h v hv
        · subst h
          rw [hv] at hx0
          exact absurd hx0.symm (by simp)

    | some w =>
      cases best with
      | none =>
        refine ⟨by omega, by simpa using hx0, fun k hk v hv => ?_, fun k hk v hv => ?_⟩
        · rcases Nat.lt_succ_iff_lt_or_eq.mp hk with h | h
          · rw [hbest k h] at hv; exact absurd hv (by simp)
          · subst h
            rw [hv] at hx0
            simp at hx0
            exact le_of_eq hx0
        · rw [hbest k hk] at hv; exact absurd hv (by simp)
      | some jm =>
        obtain ⟨j, m⟩ := jm
        obtain ⟨hji, hfj, hle, hlt⟩ := hbest
        by_cases hcmp : m < w
        · have hred : (match some w, some (j, m) with
              | some v, none => some (i, v)
              | some v, some (j, m) => if m < v then some (i, v) else some (j, m)
              | none, b => b) = some (i, w) := by simp [hcmp]
          rw [hred]
          refine ⟨by omega, by simpa using hx0, fun k hk v hv => ?_, fun k hk v hv => ?_⟩
          · rcases Nat.lt_succ_iff_lt_or_eq.mp hk with h | h
            · exact le_of_lt (lt_of_le_of_lt (hle k h v hv) hcmp)
            · subst h
              rw [hv] at hx0
              simp at hx0
              rw [hx0]
          · exact lt_of_le_of_lt (hle k hk v hv) hcmp
        · have hred : (match some w, some (j, m) with
              | some v, none => some (i, v)
              | some v, some (j, m) => if m < v then some (i, v) else some (j, m)
              | none, b => b) = some (j, m) := by simp [hcmp]
          rw [hred]
          refine ⟨by omega, hfj, fun k hk v hv => ?_, hlt⟩
          rcases Nat.lt_succ_iff_lt_or_eq.mp hk with h | h
          · exact hle k h v hv
          · subst h
            rw [hv] at hx0
            simp at hx0
            rw [hx0]
            exact le_of_not_lt hcmp

/-- Invariant of the `idxmin` fold, mirror image of `idxmaxAux_spec`. -/
theorem idxminAux_spec (f : ℕ → Option ℚ) :
    ∀ (xs : List (Option ℚ)) (i : ℕ) (best : Option (ℕ × ℚ)),
      (∀ (k : ℕ), f (i + k) = (xs[k]?).join) →
      (match best with
       | none => ∀ k < i, f k = none
       | some (j, m) => j < i ∧ f j = some m ∧
           (∀ k < i, ∀ v, f k = some v → m ≤ v) ∧
           (∀ k < j, ∀ v, f k = some v → m < v)) →
      (match idxminAux xs i best with
       | none => ∀ (k : ℕ), f k = none
       | some (j, m) => f j = some m ∧
           (∀ (k : ℕ) v, f k = some v → m ≤ v) ∧
           (∀ k < j, ∀ v, f k = some v → m < v)) := by
  intro xs
  induction xs with
  | nil =>
    intro i best hagree hbest
    have htail : ∀ (k : ℕ), i ≤ k → f k = none := by
      intro k hk
      have := hagree (k - i)
      rw [Nat.add_sub_cancel' hk] at this
      simpa using this
    cases best with
    | none =>
      simp only [idxminAux]
      intro k
      by_cases hk : k < i
      · exact hbest k hk
      · exact htail k (le_of_not_lt hk)
    | some jm =>
      obtain ⟨j, m⟩ := jm
      simp only [idxminAux]
      obtain ⟨hji, hfj, hle, hlt⟩ := hbest
      refine ⟨hfj, fun k v hk => ?_, hlt⟩
      by_cases hki : k < i
      · exact hle k hki v hk
      · rw [htail k (le_of_not_lt hki)] at hk
        exact absurd hk (by simp)
  | cons x xs ih =>
    intro i best hagree hbest
    have hx0 : f i = x := by simpa using hagree 0
    have hagree' : ∀ (k : ℕ), f (i + 1 + k) = (xs[k]?).join := by
      intro k
      have := hagree (k + 1)
      rw [show i + (k + 1) = i + 1 + k by omega] at this
      simpa using this
    show (match idxminAux (x :: xs) i best with
       | none => ∀ (k : ℕ), f k = none
       | some (j, m) => f j = some m ∧
           (∀ (k : ℕ) v, f k = some v → m ≤ v) ∧
           (∀ k < j, ∀ v, f k = some v → m < v))
    simp only [idxminAux]
    apply ih (i + 1) _ hagree'
    cases x with
    | none =>
      cases best with
      | none =>
        intro k hk
        rcases Nat.lt_succ_iff_lt_or_eq.mp hk with h | h
        · exact hbest k h
        · subst h; exact hx0
      | some jm =>
        obtain ⟨j, m⟩ := jm
        obtain ⟨hji, hfj, hle, hlt⟩ := hbest
        refine ⟨by omega, hfj, fun k hk v hv => ?_, hlt⟩
        rcases Nat.lt_succ_iff_lt_or_eq.mp hk with h | h
        · exact hle k h v hv
        · subst h
          rw [hv] at hx0
          exact absurd hx0.symm (by simp)
    | some w =>
      cases best with
      | none =>
        refine ⟨by omega, by simpa using hx0, fun k hk v hv => ?_, fun k hk v hv => ?_⟩
        · rcases Nat.lt_succ_iff_lt_or_eq.mp hk with h | h
          · rw [hbest k h] at hv; exact absurd hv (by simp)
          · subst h
            rw [hv] at hx0
            simp at hx0
            exact le_of_eq hx0.symm
        · rw [hbest k hk] at hv; exact absurd hv (by simp)
      | some jm =>
        obtain ⟨j, m⟩ := jm
        obtain ⟨hji, hfj, hle, hlt⟩ := hbest
        by_cases hcmp : w < m
        · have hred : (match some w, some (j, m) with
              | some v, none => some (i, v)
              | some v, some (j, m) => if v < m then some (i, v) else some (j, m)
              | none, b => b) = some (i, w) := by simp [hcmp]
          rw [hred]
          refine ⟨by omega, by simpa using hx0, fun k hk v hv => ?_, fun k hk v hv => ?_⟩
          · rcases Nat.lt_succ_iff_lt_or_eq.mp hk with h | h
            · exact le_of_lt (lt_of_lt_of_le hcmp (hle k h v hv))
            · subst h
              rw [hv] at hx0
              simp at hx0
              rw [hx0]
          · exact lt_of_lt_of_le hcmp (hle k hk v hv)
        · have hred : (match some w, some (j, m) with
              | some v, none => some (i, v)
              | some v, some (j, m) => if v < m then some (i, v) else some (j, m)
              | none, b => b) = some (j, m) := by simp [hcmp]
          rw [hred]
          refine ⟨by omega, hfj, fun k hk v hv => ?_, hlt⟩
          rcases Nat.lt_succ_iff_lt_or_eq.mp hk with h | h
          · exact hle k h v hv
          · subst h
            rw [hv] at hx0
            simp at hx0
            rw [hx0]
            exact le_of_not_lt hcmp

/-- C8: max/min row selection breaks ties by taking the first row in sorted
order: whenever `idxmax` (resp. `idxmin`) returns a position, the cell there
holds the maximum (resp. minimum) of the non-missing cells and no earlier
position holds that extreme value. -/
theorem idx_extreme_first_occurrence (xs : List (Option ℚ)) :
    (∀ (j : ℕ), idxmax xs = some j →
      ∃ m, (xs[j]?).join = some m ∧ (∀ (k : ℕ) v, (xs[k]?).join = some v → v ≤ m) ∧
        ∀ k < j, (xs[k]?).join ≠ some m) ∧
    (∀ (j : ℕ), idxmin xs = some j →
      ∃ m, (xs[j]?).join = some m ∧ (∀ (k : ℕ) v, (xs[k]?).join = some v → m ≤ v) ∧
        ∀ k < j, (xs[k]?).join ≠ some m) := by
  constructor
  · intro j h
    unfold idxmax at h
    cases haux : idxmaxAux xs 0 none with
    | none => rw [haux] at h; simp at h
    | some jm =>
      obtain ⟨j', m⟩ := jm
      rw [haux] at h
      simp only [Option.map] at h
      rw [Option.some.injEq] at h
      subst h
      have hs := idxmaxAux_spec (fun k => (xs[k]?).join) xs 0 none
        (fun k => by simp) (fun k hk => absurd hk (Nat.not_lt_zero k))
      rw [haux] at hs
      obtain ⟨h1, h2, h3⟩ := hs
      exact ⟨m, h1, h2, fun k hk hv => lt_irrefl m (h3 k hk m hv)⟩
  · intro j h
    unfold idxmin at h
    cases haux : idxminAux xs 0 none with
    | none => rw [haux] at h; simp at h
    | some jm =>
      obtain ⟨j', m⟩ := jm
      rw [haux] at h
      simp only [Option.map] at h
      rw [Option.some.injEq] at h
      subst h
      have hs := idxminAux_spec (fun k => (xs[k]?).join) xs 0 none
        (fun k => by simp) (fun k hk => absurd hk (Nat.not_lt_zero k))
      rw [haux] at hs
      obtain ⟨h1, h2, h3⟩ := hs
      exact ⟨m, h1, h2, fun k hk hv => lt_irrefl m (h3 k hk m hv)⟩

/-- Witness for C8 at a series with tied maxima and tied minima:
`[5, 9, 9, 1, 1]` — `idxmax` is position 1, `idxmin` position 3 (first
occurrences), and the theorem applies. -/
theorem idx_extreme_first_occurrence_witness :
    (∃ m, (([some 5, some 9, some 9, some 1, some 1] :
        List (Option ℚ))[1]?).join = some m ∧
      (∀ (k : ℕ) v, (([some 5, some 9, some 9, some 1, some 1] :
        List (Option ℚ))[k]?).join = some v → v ≤ m) ∧
      ∀ k < 1, (([some 5, some 9, some 9, some 1, some 1] :
        List (Option ℚ))[k]?).join ≠ some m) ∧
    (∃ m, (([some 5, some 9, some 9, some 1, some 1] :
        List (Option ℚ))[3]?).join = some m ∧
      (∀ (k : ℕ) v, (([some 5, some 9, some 9, some 1, some 1] :
        List (Option ℚ))[k]?).join = some v → m ≤ v) ∧
      ∀ k < 3, (([some 5, some 9, some 9, some 1, some 1] :
        List (Option ℚ))[k]?).join ≠ some m) :=
  ⟨(idx_extreme_first_occurrence [some 5, some 9, some 9, some 1, some 1]).1 1 (by decide),
   (idx_extreme_first_occurrence [some 5, some 9, some 9, some 1, some 1]).2 3 (by decide)⟩

/-! ### Claim C4: top-3 / bottom-3 highlighting in `hbar_diff` -/

/-- Membership in the high/low highlight flag, for tables with pairwise
distinct period labels: a row of the table is flagged exactly when it lies in
the corresponding end of the diff-sorted order.  (The code keys the flag on
the period label — `m in top3` — so this needs label distinctness.) -/
theorem highlight_mem_iff (rows : List Row) (hlen : rows.length = 6)
    (hmon : (rows.map Row.month).Nodup) :
    ∀ r ∈ hbarSorted rows,
      (highlightHigh rows r = true ↔ r ∈ (hbarSorted rows).drop 3) ∧
      (highlightLow rows r = true ↔ r ∈ (hbarSorted rows).take 3) := by
  intro r hr
  have hperm : (hbarSorted rows).Perm rows := List.perm_insertionSort diffLe rows
  have hslen : (hbarSorted rows).length = 6 := hperm.length_eq.trans hlen
  have hsm : ((hbarSorted rows).map Row.month).Nodup :=
    ((hperm.map Row.month).nodup_iff).mpr hmon
  have hsplit : (hbarSorted rows).take 3 ++ (hbarSorted rows).drop 3 = hbarSorted rows :=
    List.take_append_drop 3 (hbarSorted rows)
  have hdisjm : List.Disjoint (((hbarSorted rows).take 3).map Row.month)
      (((hbarSorted rows).drop 3).map Row.month) := by
    have h2 := hsm
    rw [← hsplit, List.map_append] at h2
    exact (List.nodup_append.mp h2).2.2
  have htop : top3 rows = ((hbarSorted rows).drop 3).map Row.month := by
    unfold top3
    rw [hslen]
  have hbot : bottom3 rows = ((hbarSorted rows).take 3).map Row.month := rfl
  have hmemsplit : r ∈ (hbarSorted rows).take 3 ∨ r ∈ (hbarSorted rows).drop 3 := by
    rw [← List.mem_append, hsplit]
    exact hr
  constructor
  · have hunf : highlightHigh rows r = true ↔
        r.month ∈ ((hbarSorted rows).drop 3).map Row.month := by
      rw [highlightHigh, htop, List.contains, List.elem_iff]
    rw [hunf]
    constructor
    · intro hm
      rcases hmemsplit with hcase | hcase
      · exact absurd hm (hdisjm (List.mem_map_of_mem Row.month hcase))
      · exact hcase
    · exact fun hcase => List.mem_map_of_mem Row.month hcase
  · have hunf : highlightLow rows r = true ↔
        r.month ∈ ((hbarSorted rows).take 3).map Row.month := by
      rw [highlightLow, hbot, List.contains, List.elem_iff]
    rw [hunf]
    constructor
    · intro hm
      rcases hmemsplit with hcase | hcase
      · exact hcase
      · exact absurd (List.mem_map_of_mem Row.month hcase) (fun hx => hdisjm hm hx)
    · exact fun hcase => List.mem_map_of_mem Row.month hcase

/-- C4 (amended): for every six-row table whose year-over-year differences are
all defined and pairwise distinct and whose period labels are pairwise
distinct, exactly 3 rows are flagged highlight-high, exactly 3 are flagged
highlight-low, no row carries both flags, and every highlighted-high row's
difference strictly exceeds every highlighted-low row's difference. -/
theorem hbar_highlight_spec (rows : List Row)
    (hlen : rows.length = 6)
    (hdiff : (rows.map yoyDiff).Nodup)
    (hmon : (rows.map Row.month).Nodup) :
    (rows.filter (fun r => highlightHigh rows r)).length = 3 ∧
    (rows.filter (fun r => highlightLow rows r)).length = 3 ∧
    (∀ r ∈ rows, ¬(highlightHigh rows r = true ∧ highlightLow rows r = true)) ∧
    (∀ r ∈ rows, ∀ r' ∈ rows, highlightHigh rows r = true → highlightLow rows r' = true →
      ∀ a b, yoyDiff r = some a → yoyDiff r' = some b → b < a) := by
  have hperm : (hbarSorted rows).Perm rows := List.perm_insertionSort diffLe rows
  have hslen : (hbarSorted rows).length = 6 := hperm.length_eq.trans hlen
  have hsort : List.Pairwise diffLe (hbarSorted rows) :=
    List.sorted_insertionSort diffLe rows
  have hsplit : (hbarSorted rows).take 3 ++ (hbarSorted rows).drop 3 = hbarSorted rows :=
    List.take_append_drop 3 (hbarSorted rows)
  have hsm : ((hbarSorted rows).map Row.month).Nodup :=
    ((hperm.map Row.month).nodup_iff).mpr hmon
  have hsnodup : (hbarSorted rows).Nodup := hsm.of_map
  have hdisj : List.Disjoint ((hbarSorted rows).take 3) ((hbarSorted rows).drop 3) := by
    have h2 := hsnodup
    rw [← hsplit] at h2
    exact (List.nodup_append.mp h2).2.2
  have hsd : ((hbarSorted rows).map yoyDiff).Nodup :=
    ((hperm.map yoyDiff).nodup_iff).mpr hdiff
  have hdisjd : List.Disjoint (((hbarSorted rows).take 3).map yoyDiff)
      (((hbarSorted rows).drop 3).map yoyDiff) := by
    have h2 := hsd
    rw [← hsplit, List.map_append] at h2
    exact (List.nodup_append.mp h2).2.2
  have hiff := highlight_mem_iff rows hlen hmon
  have hcross : ∀ a ∈ (hbarSorted rows).take 3, ∀ b ∈ (hbarSorted rows).drop 3,
      diffLe a b := by
    have hpw := hsort
    rw [← hsplit] at hpw
    exact (List.pairwise_append.mp hpw).2.2
  refine ⟨?_, ?_, ?_, ?_⟩
  · have hpcount : (rows.filter (fun r => highlightHigh rows r)).length =
        ((hbarSorted rows).filter (fun r => highlightHigh rows r)).length :=
      (hperm.filter _).length_eq.symm
    rw [hpcount]
    have hfil : (hbarSorted rows).filter (fun r => highlightHigh rows r) =
        (hbarSorted rows).drop 3 := by
      have h2 : (hbarSorted rows).filter (fun r => highlightHigh rows r) =
          ((hbarSorted rows).take 3 ++ (hbarSorted rows).drop 3).filter
            (fun r => highlightHigh rows r) := by rw [hsplit]
      rw [h2, List.filter_append]
      have hnil : ((hbarSorted rows).take 3).filter (fun r => highlightHigh rows r) = [] := by
        rw [List.filter_eq_nil_iff]
        intro a ha hcontra
        have hmem : a ∈ hbarSorted rows := List.mem_of_mem_take ha
        exact hdisj ha (((hiff a hmem).1).mp hcontra)
      have hall : ((hbarSorted rows).drop 3).filter (fun r => highlightHigh rows r) =
          (hbarSorted rows).drop 3 := by
        rw [List.filter_eq_self]
        intro a ha
        exact ((hiff a (List.mem_of_mem_drop ha)).1).mpr ha
      rw [hnil, hall, List.nil_append]
    rw [hfil, List.length_drop, hslen]
  · have hpcount : (rows.filter (fun r => highlightLow rows r)).length =
        ((hbarSorted rows).filter (fun r => highlightLow rows r)).length :=
      (hperm.filter _).length_eq.symm
    rw [hpcount]
    have hfil : (hbarSorted rows).filter (fun r => highlightLow rows r) =
        (hbarSorted rows).take 3 := by
      have h2 : (hbarSorted rows).filter (fun r => highlightLow rows r) =
          ((hbarSorted rows).take 3 ++ (hbarSorted rows).drop 3).filter
            (fun r => highlightLow rows r) := by rw [hsplit]
      rw [h2, List.filter_append]
      have hall : ((hbarSorted rows).take 3).filter (fun r => highlightLow rows r) =
          (hbarSorted rows).take 3 := by
        rw [List.filter_eq_self]
        intro a ha
        exact ((hiff a (List.mem_of_mem_take ha)).2).mpr ha
      have hnil : ((hbarSorted rows).drop 3).filter (fun r => highlightLow rows r) = [] := by
        rw [List.filter_eq_nil_iff]
        intro a ha hcontra
        have hmem : a ∈ hbarSorted rows := List.mem_of_mem_drop ha
        exact hdisj (((hiff a hmem).2).mp hcontra) ha
      rw [hnil, hall, List.append_nil]
    rw [hfil, List.length_take, hslen]
    norm_num
  · intro r hr ⟨hhi, hlo⟩
    have hmem : r ∈ hbarSorted rows := hperm.mem_iff.mpr hr
    exact hdisj (((hiff r hmem).2).mp hlo) (((hiff r hmem).1).mp hhi)
  · intro r hr r' hr' hhi hlo a b ha hb
    have hmem : r ∈ hbarSorted rows := hperm.mem_iff.mpr hr
    have hmem' : r' ∈ hbarSorted rows := hperm.mem_iff.mpr hr'
    have hdropmem : r ∈ (hbarSorted rows).drop 3 := ((hiff r hmem).1).mp hhi
    have htakemem : r' ∈ (hbarSorted rows).take 3 := ((hiff r' hmem').2).mp hlo
    have hle : diffLe r' r := hcross r' htakemem r hdropmem
    have hble : b ≤ a := by
      rw [diffLe, ha, hb] at hle
      exact hle
    have hne : b ≠ a := by
      intro heq
      subst heq
      have h1 : some b ∈ (((hbarSorted rows).take 3).map yoyDiff) := by
        rw [← hb]
        exact List.mem_map_of_mem yoyDiff htakemem
      have h2 : some b ∈ (((hbarSorted rows).drop 3).map yoyDiff) := by
        rw [← ha]
        exact List.mem_map_of_mem yoyDiff hdropmem
      exact hdisjd h1 h2
    exact lt_of_le_of_ne hble hne

/-- A six-row table with pairwise distinct differences but a duplicated period
label `"A"`: the highlight flag is keyed on the label, so four rows end up
flagged highlight-high. -/
def rowsCex : List Row :=
  [⟨"A", some 1, some 0, none⟩, ⟨"B", some 2, some 0, none⟩,
   ⟨"C", some 3, some 0, none⟩, ⟨"D", some 4, some 0, none⟩,
   ⟨"E", some 5, some 0, none⟩, ⟨"A", some 6, some 0, none⟩]

/-- C4 fails as stated: on `rowsCex` — six rows, pairwise distinct
year-over-year differences — the number of rows flagged highlight-high is 4,
not 3 (the row `("A", 1)` inherits the flag of `("A", 6)` through the shared
period label), so the highlight sets are not the three extreme rows and are
not disjoint. -/
theorem highlight_by_month_cex :
    rowsCex.length = 6 ∧
    (rowsCex.map yoyDiff).Nodup ∧
    (rowsCex.filter (fun r => highlightHigh rowsCex r)).length = 4 := by
  refine ⟨rfl, ?_, ?_⟩
  · norm_num [rowsCex, yoyDiff]
  · norm_num [rowsCex, highlightHigh, top3, bottom3, hbarSorted,
      List.insertionSort, List.orderedInsert, diffLe, yoyDiff]
    decide

/-- Witness for C4 (amended) at six rows with distinct labels `"A"`…`"F"` and
distinct differences 1…6. -/
def rowsW : List Row :=
  [⟨"A", some 1, some 0, none⟩, ⟨"B", some 2, some 0, none⟩,
   ⟨"C", some 3, some 0, none⟩, ⟨"D", some 4, some 0, none⟩,
   ⟨"E", some 5, some 0, none⟩, ⟨"F", some 6, some 0, none⟩]

/-- Witness for C4 (amended): the theorem applies to `rowsW` (hypotheses are
discharged by evaluation) and yields the 3/3/disjoint/ordered conclusion. -/
theorem hbar_highlight_spec_witness :
    (rowsW.filter (fun r => highlightHigh rowsW r)).length = 3 ∧
    (rowsW.filter (fun r => highlightLow rowsW r)).length = 3 ∧
    (∀ r ∈ rowsW, ¬(highlightHigh rowsW r = true ∧ highlightLow rowsW r = true)) ∧
    (∀ r ∈ rowsW, ∀ r' ∈ rowsW, highlightHigh rowsW r = true → highlightLow rowsW r' = true →
      ∀ a b, yoyDiff r = some a → yoyDiff r' = some b → b < a) :=
  hbar_highlight_spec rowsW rfl (by norm_num [rowsW, yoyDiff]) (by decide)

/-! ### Claim C7: idempotence of normalization

The crux is that re-normalizing a numeric cell goes through `str()` and
`float()` again, so we prove that parsing the rendered form of a parsed value
restores it exactly. -/

theorem charVal_digitChar (d : ℕ) (h : d < 10) : charVal (digitChar d) = d := by
  interval_cases d <;> rfl

theorem isDigit_digitChar (d : ℕ) (h : d < 10) : (digitChar d).isDigit = true := by
  interval_cases d <;> rfl

theorem natDigits_all_digits (n : ℕ) : ∀ c ∈ natDigits n, c.isDigit = true := by
  induction n using natDigits.induct with
  | case1 n h =>
    rw [natDigits, dif_pos h]
    intro c hc
    rw [List.mem_singleton] at hc
    exact hc ▸ isDigit_digitChar n h
  | case2 n h ih =>
    rw [natDigits, dif_neg h]
    intro c hc
    rcases List.mem_append.mp hc with hc | hc
    · exact ih c hc
    · rw [List.mem_singleton] at hc
      exact hc ▸ isDigit_digitChar (n % 10) (Nat.mod_lt n (by omega))

theorem natDigits_ne_nil (n : ℕ) : natDigits n ≠ [] := by
  rw [natDigits]
  by_cases h : n < 10
  · rw [dif_pos h]; simp
  · rw [dif_neg h]; simp

theorem digitsToNat_append_singleton (xs : List Char) (c : Char) :
    digitsToNat (xs ++ [c]) = 10 * digitsToNat xs + charVal c := by
  unfold digitsToNat
  rw [List.foldl_append]
  rfl

theorem digitsToNat_natDigits (n : ℕ) : digitsToNat (natDigits n) = n := by
  induction n using natDigits.induct with
  | case1 n h =>
    rw [natDigits, dif_pos h]
    show 10 * 0 + charVal (digitChar n) = n
    rw [charVal_digitChar n h]
    omega
  | case2 n h ih =>
    rw [natDigits, dif_neg h, digitsToNat_append_singleton, ih,
      charVal_digitChar (n % 10) (Nat.mod_lt n (by omega))]
    omega

theorem padDigits_all_digits (k : ℕ) : ∀ (m : ℕ), ∀ c ∈ padDigits m k, c.isDigit = true := by
  induction k with
  | zero => intro m c hc; simp [padDigits] at hc
  | succ k ih =>
    intro m c hc
    rw [padDigits] at hc
    rcases List.mem_append.mp hc with hc | hc
    · exact ih (m / 10) c hc
    · rw [List.mem_singleton] at hc
      exact hc ▸ isDigit_digitChar (m % 10) (Nat.mod_lt m (by omega))

theorem padDigits_length (k : ℕ) : ∀ (m : ℕ), (padDigits m k).length = k := by
  induction k with
  | zero => intro m; rfl
  | succ k ih =>
    intro m
    rw [padDigits, List.length_append, ih (m / 10)]
    rfl

theorem digitsToNat_padDigits (k : ℕ) : ∀ (m : ℕ), digitsToNat (padDigits m k) = m % 10 ^ k := by
  induction k with
  | zero => intro m; simp [padDigits, digitsToNat, Nat.mod_one]
  | succ k ih =>
    intro m
    rw [padDigits, digitsToNat_append_singleton, ih (m / 10),
      charVal_digitChar (m % 10) (Nat.mod_lt m (by omega))]
    rw [pow_succ, mul_comm (10 ^ k) 10, Nat.mod_mul]
    omega

theorem takeWhile_append_cons {p : Char → Bool} (xs : List Char) (y : Char) (ys : List Char)
    (hxs : ∀ c ∈ xs, p c = true) (hy : p y = false) :
    (xs ++ y :: ys).takeWhile p = xs ∧ (xs ++ y :: ys).dropWhile p = y :: ys := by
  induction xs with
  | nil => simp [List.takeWhile_cons, List.dropWhile_cons, hy]
  | cons x xs ih =>
    have hx : p x = true := hxs x (List.mem_cons_self x xs)
    have ih2 := ih (fun c hc => hxs c (List.mem_cons_of_mem x hc))
    simp only [List.cons_append, List.takeWhile_cons, List.dropWhile_cons, hx, if_true]
    exact ⟨by rw [ih2.1], by rw [ih2.2]⟩

theorem parseUnsigned_render (a m k : ℕ) :
    parseUnsigned (natDigits a ++ '.' :: padDigits m k) =
      some ((a : ℚ) + ((m % 10 ^ k : ℕ) : ℚ) / 10 ^ k) := by
  have hdot : Char.isDigit '.' = false := rfl
  have hsp := takeWhile_append_cons (natDigits a) '.' (padDigits m k)
    (natDigits_all_digits a) hdot
  have hall : (padDigits m k).all Char.isDigit = true :=
    List.all_eq_true.mpr (padDigits_all_digits k m)
  have hne : (natDigits a).isEmpty = false := by
    cases hd : natDigits a with
    | nil => exact absurd hd (natDigits_ne_nil a)
    | cons c cs => rfl
  simp only [parseUnsigned, hsp.1, hsp.2, hall, hne, Bool.false_and, Bool.not_false,
    Bool.and_true, Bool.true_and, if_true, digitsToNat_natDigits, digitsToNat_padDigits,
    padDigits_length]

theorem parseSigned_renderFloat (q : ℚ) (h : q.den ∣ 10 ^ q.den) :
    parseSigned (renderFloat q) = some q := by
  have hden0 : ((q.den : ℚ)) ≠ 0 := by
    exact_mod_cast q.den_nz
  have hcast : ((10 ^ q.den / q.den : ℕ) : ℚ) = (10 : ℚ) ^ q.den / (q.den : ℚ) := by
    rw [Nat.cast_div h hden0]
    push_cast
    rfl
  have habs : |q| = |(q.num : ℚ)| / (q.den : ℚ) := by
    conv_lhs => rw [← Rat.num_div_den q]
    rw [abs_div]
    congr 1
    exact abs_of_pos (by exact_mod_cast q.pos)
  have hm : ((q.num.natAbs * (10 ^ q.den / q.den) : ℕ) : ℚ) = |q| * 10 ^ q.den := by
    push_cast [hcast, Int.cast_natAbs]
    rw [habs]
    field_simp
  set k := q.den with hk
  set m := q.num.natAbs * (10 ^ k / q.den) with hmdef
  have h10 : ((10 : ℚ) ^ k) ≠ 0 := by positivity
  have hmm : (m : ℚ) = 10 ^ k * ((m / 10 ^ k : ℕ) : ℚ) + ((m % 10 ^ k : ℕ) : ℚ) := by
    exact_mod_cast (Nat.div_add_mod m (10 ^ k)).symm
  have hval : ((m / 10 ^ k : ℕ) : ℚ) + ((m % 10 ^ k : ℕ) : ℚ) / 10 ^ k = |q| := by
    have hdiv : ((m / 10 ^ k : ℕ) : ℚ) + ((m % 10 ^ k : ℕ) : ℚ) / 10 ^ k
        = (m : ℚ) / 10 ^ k := by
      rw [hmm]
      field_simp
      ring
    rw [hdiv, hm, mul_div_cancel_right₀ _ h10]
  rcases lt_or_ge q 0 with hneg | hpos
  · have hrender : renderFloat q =
        '-' :: (natDigits (m / 10 ^ k) ++ '.' :: padDigits m k) := by
      rw [renderFloat, if_pos hneg]
      rfl
    rw [hrender]
    show (parseUnsigned (natDigits (m / 10 ^ k) ++ '.' :: padDigits m k)).map
      (fun q => -q) = some q
    rw [parseUnsigned_render]
    rw [Option.map_some']
    rw [hval, abs_of_neg hneg, neg_neg]
  · have hrender : renderFloat q = natDigits (m / 10 ^ k) ++ '.' :: padDigits m k := by
      rw [renderFloat, if_neg (not_lt.mpr hpos)]
      rfl
    rw [hrender]
    rcases hnd : natDigits (m / 10 ^ k) with _ | ⟨c, cs⟩
    · exact absurd hnd (natDigits_ne_nil _)
    · have hc : c.isDigit = true :=
        natDigits_all_digits _ c (by rw [hnd]; exact List.mem_cons_self c cs)
      have hstep : parseSigned (c :: (cs ++ '.' :: padDigits m k)) =
          parseUnsigned (c :: (cs ++ '.' :: padDigits m k)) := by
        unfold parseSigned
        split
        · rename_i heq
          rw [List.cons.injEq] at heq
          rw [heq.1] at hc
          exact absurd hc (by decide)
        · rename_i heq
          rw [List.cons.injEq] at heq
          rw [heq.1] at hc
          exact absurd hc (by decide)
        · rfl
      rw [List.cons_append, hstep, ← List.cons_append, ← hnd,
        parseUnsigned_render, hval, abs_of_nonneg hpos]

/-- A number dividing some power of ten divides the power of ten with its own
exponent (its prime factors are 2 and 5, each with multiplicity below itself). -/
theorem dvd_ten_pow_self (d : ℕ) : ∀ (l : ℕ), d ∣ 10 ^ l → d ∣ 10 ^ d := by
  induction d using Nat.strong_induction_on with
  | _ d ih =>
    intro l h
    rcases Nat.lt_or_ge d 2 with hd | hd
    · interval_cases d
      · exfalso
        have h0 := Nat.eq_zero_of_zero_dvd h
        exact absurd h0 (Nat.pos_iff_ne_zero.mp (by positivity))
      · exact one_dvd _
    · have hne1 : d ≠ 1 := by omega
      have hp := Nat.minFac_prime hne1
      have hpd : d.minFac ∣ d := Nat.minFac_dvd d
      have hp10 : d.minFac ∣ 10 := hp.dvd_of_dvd_pow (hpd.trans h)
      have hppos : 2 ≤ d.minFac := hp.two_le
      have hple : d.minFac ≤ 10 := Nat.le_of_dvd (by norm_num) hp10
      have hde : d = d.minFac * (d / d.minFac) := (Nat.mul_div_cancel' hpd).symm
      have h2e : 2 * (d / d.minFac) ≤ d.minFac * (d / d.minFac) :=
        Nat.mul_le_mul_right _ hppos
      have hepos : 1 ≤ d / d.minFac := by
        rcases Nat.eq_zero_or_pos (d / d.minFac) with h0 | h1
        · rw [h0, mul_zero] at hde; omega
        · exact h1
      have helt : d / d.minFac < d := by omega
      have hel : d / d.minFac ∣ 10 ^ l :=
        (Dvd.intro d.minFac (by rw [mul_comm]; exact hde.symm)).trans h
      have hee := ih (d / d.minFac) helt l hel
      have h1 : d ∣ 10 ^ (d / d.minFac + 1) := by
        have hmul : d.minFac * (d / d.minFac) ∣ 10 * 10 ^ (d / d.minFac) :=
          mul_dvd_mul hp10 hee
        rw [← hde, ← pow_succ'] at hmul
        exact hmul
      exact h1.trans (pow_dvd_pow 10 (by omega))

/-- The denominator of a parsed unsigned decimal literal divides a power of
ten (the fraction part has `10 ^ length` as an explicit denominator). -/
theorem parseUnsigned_den_dvd (cs : List Char) (q : ℚ)
    (h : parseUnsigned cs = some q) : ∃ l, q.den ∣ 10 ^ l := by
  simp only [parseUnsigned] at h
  rcases hdw : cs.dropWhile Char.isDigit with _ | ⟨c, rest⟩
  · rw [hdw] at h
    by_cases hip : (cs.takeWhile Char.isDigit).isEmpty
    · rw [if_pos hip] at h
      exact absurd h (by simp)
    · rw [if_neg hip] at h
      refine ⟨0, ?_⟩
      have hq : q = ((digitsToNat (cs.takeWhile Char.isDigit) : ℕ) : ℚ) := by
        injection h with h2
        exact h2.symm
      rw [hq, Rat.den_natCast]
      exact one_dvd _
  · rw [hdw] at h
    split at h
    · rename_i heq
      exact absurd heq (by simp)
    · rename_i fp heq
      split at h
      · injection h with h2
        refine ⟨fp.length, ?_⟩
        have h10 : ((10 : ℚ) ^ fp.length) ≠ 0 := by positivity
        have hq : q = Rat.divInt
            ((digitsToNat (cs.takeWhile Char.isDigit) * 10 ^ fp.length +
              digitsToNat fp : ℕ) : ℤ) ((10 ^ fp.length : ℕ) : ℤ) := by
          rw [Rat.divInt_eq_div, ← h2]
          push_cast
          field_simp
        have hdvd := Rat.den_dvd
          ((digitsToNat (cs.takeWhile Char.isDigit) * 10 ^ fp.length +
            digitsToNat fp : ℕ) : ℤ) ((10 ^ fp.length : ℕ) : ℤ)
        rw [← hq] at hdvd
        exact_mod_cast hdvd
      · exact absurd h (by simp)
    · exact absurd h (by simp)

/-- The denominator of any value of `float()` on a decimal literal divides
`10 ^ denominator`. -/
theorem parseSigned_den_dvd (cs : List Char) (q : ℚ)
    (h : parseSigned cs = some q) : q.den ∣ 10 ^ q.den := by
  have hex : ∃ l, q.den ∣ 10 ^ l := by
    unfold parseSigned at h
    split at h
    · rcases hpu : parseUnsigned _ with _ | q'
      · rw [hpu] at h; exact absurd h (by simp)
      · rw [hpu] at h
        simp only [Option.map_some'] at h
        injection h with h2
        obtain ⟨l, hl⟩ := parseUnsigned_den_dvd _ q' hpu
        refine ⟨l, ?_⟩
        rw [← h2, Rat.neg_den]
        exact hl
    · exact parseUnsigned_den_dvd _ q h
    · exact parseUnsigned_den_dvd _ q h
  obtain ⟨l, hl⟩ := hex
  exact dvd_ten_pow_self q.den l hl

/-- Every character of a rendered float is a digit, a minus sign, or a dot. -/
theorem renderFloat_chars (q : ℚ) :
    ∀ c ∈ renderFloat q, c.isDigit = true ∨ c = '-' ∨ c = '.' := by
  intro c hc
  simp only [renderFloat] at hc
  rcases List.mem_append.mp hc with h1 | h1
  · rcases List.mem_append.mp h1 with h2 | h2
    · by_cases hq : q < 0
      · rw [if_pos hq] at h2
        rw [List.mem_singleton] at h2
        exact Or.inr (Or.inl h2)
      · rw [if_neg hq] at h2
        exact absurd h2 (List.not_mem_nil c)
    · exact Or.inl (natDigits_all_digits _ c h2)
  · rcases List.mem_cons.mp h1 with h3 | h3
    · exact Or.inr (Or.inr h3)
    · exact Or.inl (padDigits_all_digits _ _ c h3)

/-- Stripping commas and spaces leaves a rendered float unchanged. -/
theorem removeAll_renderFloat (q : ℚ) :
    removeAllChar ' ' (removeAllChar ',' (renderFloat q)) = renderFloat q := by
  have hin : ∀ c ∈ renderFloat q, c ≠ ',' ∧ c ≠ ' ' := by
    intro c hc
    rcases renderFloat_chars q c hc with hd | hd | hd
    · constructor <;> intro heq <;> rw [heq] at hd <;> exact absurd hd (by decide)
    · rw [hd]; exact ⟨by decide, by decide⟩
    · rw [hd]; exact ⟨by decide, by decide⟩
  have h1 : removeAllChar ',' (renderFloat q) = renderFloat q := by
    rw [removeAllChar, List.filter_eq_self]
    intro a ha
    simpa using (hin a ha).1
  rw [h1, removeAllChar, List.filter_eq_self]
  intro a ha
  simpa using (hin a ha).2

/-- A rendered float is never the empty string. -/
theorem renderFloat_ne_nil (q : ℚ) : renderFloat q ≠ [] := by
  intro h
  simp only [renderFloat] at h
  rcases List.append_eq_nil.mp h with ⟨h2, _⟩
  rcases List.append_eq_nil.mp h2 with ⟨_, h3⟩
  exact natDigits_ne_nil _ h3

/-- A rendered float is never the string `"nan"`. -/
theorem renderFloat_ne_nan (q : ℚ) : renderFloat q ≠ "nan".data := by
  intro h
  by_cases hq : q < 0 <;>
    simp only [renderFloat, hq, if_true, if_false, List.singleton_append,
      List.nil_append, List.cons_append] at h
  · injection h with h1 h2
    exact absurd h1 (by decide)
  · rcases hnd : natDigits ((q.num.natAbs * (10 ^ q.den / q.den)) / 10 ^ q.den)
      with _ | ⟨c, cs⟩
    · exact natDigits_ne_nil _ hnd
    · rw [hnd, List.cons_append] at h
      injection h with h1 h2
      have hc : c.isDigit = true :=
        natDigits_all_digits _ c (by rw [hnd]; exact List.mem_cons_self c cs)
      rw [h1] at hc
      exact absurd hc (by decide)

/-- Re-coercing a numeric cell whose value came from a decimal parse restores
it exactly: `float(str(q)) == q`. -/
theorem coerceCell_num (q : ℚ) (h : q.den ∣ 10 ^ q.den) :
    coerceCell (.num q) = .ok (.num q) := by
  have hclean : removeAllChar ' ' (removeAllChar ',' (pyStr (.num q))) = renderFloat q :=
    removeAll_renderFloat q
  have hne : (renderFloat q).isEmpty = false := by
    cases hd : renderFloat q with
    | nil => exact absurd hd (renderFloat_ne_nil q)
    | cons c cs => rfl
  have hfl : pyFloat (renderFloat q) = some (some q) := by
    rw [pyFloat, if_neg (renderFloat_ne_nan q), parseSigned_renderFloat q h]
    rfl
  simp only [coerceCell, hclean, hne, Bool.false_eq_true, if_false, hfl]

/-- Coercing a missing cell keeps it missing (`float(str(nan))` is `nan`). -/
theorem coerceCell_null : coerceCell .null = .ok .null := by decide

/-- Idempotence of numeric cell coercion. -/
theorem coerceCell_idem (v w : Val) (h : coerceCell v = .ok w) :
    coerceCell w = .ok w := by
  simp only [coerceCell] at h
  by_cases he : (removeAllChar ' ' (removeAllChar ',' (pyStr v))).isEmpty
  · rw [if_pos he] at h
    injection h with h2
    rw [← h2]
    exact coerceCell_null
  · rw [if_neg he] at h
    rcases hp : pyFloat (removeAllChar ' ' (removeAllChar ',' (pyStr v))) with _ | o
    · rw [hp] at h
      exact absurd h (by simp)
    · rw [hp] at h
      rcases o with _ | q
      · injection h with h2
        rw [← h2]
        exact coerceCell_null
      · injection h with h2
        rw [← h2]
        have hq : parseSigned (removeAllChar ' ' (removeAllChar ',' (pyStr v))) = some q := by
          rw [pyFloat] at hp
          by_cases hnan : removeAllChar ' ' (removeAllChar ',' (pyStr v)) = "nan".data
          · rw [if_pos hnan] at hp
            exact absurd hp (by simp)
          · rw [if_neg hnan] at hp
            rcases hps : parseSigned (removeAllChar ' ' (removeAllChar ',' (pyStr v)))
              with _ | q'
            · rw [hps] at hp; exact absurd hp (by simp)
            · rw [hps] at hp
              simp only [Option.map_some', Option.some.injEq] at hp
              rw [hp]
        exact coerceCell_num q (parseSigned_den_dvd _ q hq)

/-- `dropWhile` is idempotent. -/
theorem dropWhile_idem {p : Char → Bool} (l : List Char) :
    (l.dropWhile p).dropWhile p = l.dropWhile p := by
  induction l with
  | nil => rfl
  | cons a t ih =>
    by_cases ha : p a
    · rw [List.dropWhile_cons, if_pos ha, ih]
    · rw [List.dropWhile_cons, if_neg ha, List.dropWhile_cons, if_neg ha]

/-- `dropWhile` removes an initial segment: the original list is some prefix
followed by the result. -/
theorem dropWhile_eq_append {p : Char → Bool} (l : List Char) :
    ∃ s, s ++ l.dropWhile p = l := by
  induction l with
  | nil => exact ⟨[], rfl⟩
  | cons a t ih =>
    by_cases ha : p a
    · obtain ⟨s, hs⟩ := ih
      refine ⟨a :: s, ?_⟩
      rw [List.dropWhile_cons, if_pos ha, List.cons_append, hs]
    · exact ⟨[], by rw [List.dropWhile_cons, if_neg ha]; rfl⟩

/-- The length of `dropWhile` output is at most the input length. -/
theorem length_dropWhile_le_aux {p : Char → Bool} (l : List Char) :
    (l.dropWhile p).length ≤ l.length := by
  induction l with
  | nil => simp
  | cons a t ih =>
    by_cases ha : p a
    · rw [List.dropWhile_cons, if_pos ha]
      exact le_trans ih (by simp)
    · rw [List.dropWhile_cons, if_neg ha]

/-- A nonempty list fixed by `dropWhile` has a head failing the predicate. -/
theorem dropWhile_fix_head {p : Char → Bool} (a : Char) (t : List Char)
    (h : (a :: t).dropWhile p = a :: t) : p a = false := by
  by_cases ha : p a = true
  · rw [List.dropWhile_cons, if_pos ha] at h
    have hlen := length_dropWhile_le_aux (p := p) t
    rw [h] at hlen
    simp at hlen
  · simpa using ha

/-- Python `strip()` is idempotent. -/
theorem pyStrip_idem (cs : List Char) : pyStrip (pyStrip cs) = pyStrip cs := by
  have hfix := dropWhile_idem (p := Char.isWhitespace) cs
  unfold pyStrip
  generalize hA : cs.dropWhile Char.isWhitespace = A at hfix ⊢
  set B := (A.reverse.dropWhile Char.isWhitespace).reverse with hBdef
  have hBrev : B.reverse = A.reverse.dropWhile Char.isWhitespace := by
    rw [hBdef, List.reverse_reverse]
  obtain ⟨s, hs⟩ := dropWhile_eq_append (p := Char.isWhitespace) A.reverse
  have hab : A = B ++ s.reverse := by
    have h2 := congrArg List.reverse hs
    rw [List.reverse_reverse, List.reverse_append, ← hBrev, List.reverse_reverse] at h2
    exact h2.symm
  have hB1 : B.dropWhile Char.isWhitespace = B := by
    rcases hbv : B with _ | ⟨c, t⟩
    · rfl
    · have hac : A = c :: (t ++ s.reverse) := by
        rw [hab, hbv, List.cons_append]
      have h3 := hfix
      rw [hac] at h3
      have hpc := dropWhile_fix_head c (t ++ s.reverse) h3
      simp [List.dropWhile_cons, hpc]
  rw [hB1, hBrev, dropWhile_idem]

/-- String-level `strip` is idempotent. -/
theorem stripStr_idem (s : String) : stripStr (stripStr s) = stripStr s := by
  show String.mk (pyStrip (pyStrip s.data)) = String.mk (pyStrip s.data)
  rw [pyStrip_idem]

/-- Every synonym-table target is one of the four canonical column names. -/
theorem COLUMN_MAP_targets :
    ∀ x ∈ COLUMN_MAP, x.2 = "월" ∨ x.2 = "매출액" ∨ x.2 = "전년동월" ∨ x.2 = "증감률" := by
  decide

/-- The four canonical column names are fixed points of header renaming. -/
theorem renameHeader_canon :
    renameHeader "월" = "월" ∧ renameHeader "매출액" = "매출액" ∧
    renameHeader "전년동월" = "전년동월" ∧ renameHeader "증감률" = "증감률" := by
  decide

/-- Header renaming is idempotent: looked-up names map to canonical fixed
points, and unrecognized names are already stripped after one pass. -/
theorem renameHeader_idem (c : String) :
    renameHeader (renameHeader c) = renameHeader c := by
  have h1 : renameHeader c = mapGet (stripStr c) := rfl
  cases hfind : COLUMN_MAP.find? (fun p => p.1 == stripStr c) with
  | none =>
    have h2 : renameHeader c = stripStr c := by rw [h1, mapGet, hfind]
    rw [h2]
    show mapGet (stripStr (stripStr c)) = stripStr c
    rw [stripStr_idem, mapGet, hfind]
  | some p =>
    have h2 : renameHeader c = p.2 := by rw [h1, mapGet, hfind]
    rw [h2]
    have htgt := COLUMN_MAP_targets p (List.mem_of_find?_eq_some hfind)
    rcases htgt with h | h | h | h <;> rw [h]
    · exact renameHeader_canon.1
    · exact renameHeader_canon.2.1
    · exact renameHeader_canon.2.2.1
    · exact renameHeader_canon.2.2.2

/-- Idempotence of cell coercion lifted to whole columns. -/
theorem mapM_coerce_idem : ∀ (cells cells' : List Val),
    cells.mapM coerceCell = .ok cells' → cells'.mapM coerceCell = .ok cells' := by
  intro cells
  induction cells with
  | nil =>
    intro cells' h
    have h2 : (Except.ok [] : Except String (List Val)) = .ok cells' := h
    injection h2 with h3
    rw [← h3]
    rfl
  | cons x xs ih =>
    intro cells' h
    rw [List.mapM_cons] at h
    cases hfx : coerceCell x with
    | error e => rw [hfx] at h; simp [Bind.bind, Except.bind] at h
    | ok b =>
      rw [hfx] at h
      cases hrest : xs.mapM coerceCell with
      | error e => rw [hrest] at h; simp [Bind.bind, Except.bind] at h
      | ok bs =>
        rw [hrest] at h
        simp only [Bind.bind, Except.bind, pure, Except.pure, Except.ok.injEq] at h
        subst h
        rw [List.mapM_cons, coerceCell_idem x b hfx, ih bs hrest]
        rfl

/-- Idempotence of the per-column transformation of `normalize_columns`. -/
theorem transformColumn_idem (n : String) (cells cells' : List Val)
    (h : transformColumn n cells = .ok cells') :
    transformColumn n cells' = .ok cells' := by
  by_cases hnum : numericCols.contains n = true
  · rw [transformColumn, if_pos hnum] at h ⊢
    exact mapM_coerce_idem cells cells' h
  · by_cases hmon : (n == "월") = true
    · rw [transformColumn, if_neg hnum, if_pos hmon] at h ⊢
      injection h with h2
      rw [← h2, List.map_map]
      have hpt : ∀ v : Val,
          ((fun v => Val.str (String.mk (pyStrip (pyStr v)))) ∘
            (fun v => Val.str (String.mk (pyStrip (pyStr v))))) v =
          (fun v => Val.str (String.mk (pyStrip (pyStr v)))) v := by
        intro v
        show Val.str (String.mk (pyStrip (pyStrip (pyStr v)))) =
          Val.str (String.mk (pyStrip (pyStr v)))
        rw [pyStrip_idem]
      rw [List.map_congr_left (fun a _ => hpt a)]
    · rw [transformColumn, if_neg hnum, if_neg hmon] at h ⊢

/-- C7: column normalization is idempotent — whenever `normalize_columns`
succeeds, running it again on its own output succeeds and returns the output
unchanged (same headers, same cells).  Headers reach fixed points of the
synonym lookup, re-stringifying a parsed float parses back to the same value,
missing stays missing, and the period column is already stripped. -/
theorem normalize_columns_idem (t u : Table) (h : normalize_columns t = .ok u) :
    normalize_columns u = .ok u := by
  induction t generalizing u with
  | nil =>
    have h2 : (Except.ok [] : Except String Table) = .ok u := h
    injection h2 with h3
    rw [← h3]
    rfl
  | cons x t ih =>
    rw [normalize_columns, renameTable, List.map_cons, List.mapM_cons] at h
    cases hgx : transformColumn (renameHeader x.1) x.2 with
    | error e =>
      rw [hgx] at h
      simp [Bind.bind, Except.bind, Except.map] at h
    | ok cs =>
      rw [hgx] at h
      cases hrest : (t.map (fun p => (renameHeader p.1, p.2))).mapM
          (fun p => (transformColumn p.1 p.2).map (fun cs => (p.1, cs))) with
      | error e =>
        rw [hrest] at h
        simp [Bind.bind, Except.bind, Except.map] at h
      | ok bs =>
        rw [hrest] at h
        simp only [Bind.bind, Except.bind, Except.map, pure, Except.pure,
          Except.ok.injEq] at h
        subst h
        have hrest2 : normalize_columns t = .ok bs := by
          rw [normalize_columns, renameTable]
          exact hrest
        have hihbs : normalize_columns bs = .ok bs := ih bs hrest2
        rw [normalize_columns, renameTable, List.map_cons, List.mapM_cons]
        have hhead : renameHeader (renameHeader x.1) = renameHeader x.1 :=
          renameHeader_idem x.1
        have htr : transformColumn (renameHeader (renameHeader x.1)) cs = .ok cs := by
          rw [hhead]
          exact transformColumn_idem (renameHeader x.1) x.2 cs hgx
        show (((transformColumn (renameHeader (renameHeader x.1)) cs).map
            (fun c => (renameHeader (renameHeader x.1), c))) >>= fun b =>
            ((bs.map (fun p => (renameHeader p.1, p.2))).mapM
              (fun p => (transformColumn p.1 p.2).map (fun cs => (p.1, cs)))) >>=
              fun bs2 => pure (b :: bs2)) = .ok ((renameHeader x.1, cs) :: bs)
        rw [htr, hhead]
        have hbs2 : (bs.map (fun p => (renameHeader p.1, p.2))).mapM
            (fun p => (transformColumn p.1 p.2).map (fun cs => (p.1, cs))) = .ok bs := by
          rw [← renameTable, ← normalize_columns]
          exact hihbs
        rw [hbs2]
        rfl

/-- Witness for C7: a table exercising alias renaming, whitespace-header
trimming, comma stripping, empty-to-missing, and an untouched extra column;
normalization succeeds and renormalizing its output is the identity. -/
theorem normalize_columns_idem_witness :
    normalize_columns
      [("월", [Val.str "2023-01"]), ("매출액", [Val.num 1234]),
       ("전년동월", [Val.null]), ("증감률", [Val.num 5]), ("기타", [Val.str "x"])] =
    .ok [("월", [Val.str "2023-01"]), ("매출액", [Val.num 1234]),
       ("전년동월", [Val.null]), ("증감률", [Val.num 5]), ("기타", [Val.str "x"])] :=
  normalize_columns_idem
    [(" month ", [Val.str "2023-01"]), ("Sales", [Val.str "1,234 "]),
     ("전년", [Val.str " "]), ("growth", [Val.str "5"]), ("기타", [Val.str "x"])]
    [("월", [Val.str "2023-01"]), ("매출액", [Val.num 1234]),
     ("전년동월", [Val.null]), ("증감률", [Val.num 5]), ("기타", [Val.str "x"])]
    (by decide)
